import Mathlib

/-
Verification development for openwhisk-action-manager.

The repository synchronizes a local directory tree of OpenWhisk actions with
the remote platform state: it builds each action, computes a content
fingerprint, checks the remote recorded fingerprint (an annotation with key
"md5sum"), uploads changed actions, and deletes remote actions that have no
local counterpart.

This file gives a shallow embedding of the relevant source functions
(src/index.js, src/tasks.js, the utils file) and proves or refutes the
specified properties about them.  External collaborators (the md5 library,
minimatch, stat, the OpenWhisk gateway) are modelled as function parameters
or as explicit state transitions; asynchronous promise chains are modelled
as Except values and event traces.
-/

/-! ### A small model of JavaScript values, for the lodash lookups

`check_action$update_action$check_existing` (src/index.js) and
`openwhisk$check_existing_action` (src/tasks.js) both read the previously
recorded fingerprint with
`_.get(_.groupBy(annotations, 'key'), <path>, 'n/a')`.
index.js uses the path `'md5sum.value'`, tasks.js uses `'md5sum[0].value'`.
To settle what those lookups return we model just enough of JavaScript
values and of lodash `groupBy`/`get`. -/

inductive JsVal where
  | str : String → JsVal
  | arr : List JsVal → JsVal
  | obj : List (String × JsVal) → JsVal
  | undef : JsVal

/-- Field access on a JavaScript object: the first binding of the key wins
(a lodash `groupBy` result binds every key once). Missing key is undefined. -/
def jsGetField : List (String × JsVal) → String → JsVal
  | [], _ => JsVal.undef
  | (k, v) :: rest, key => if k == key then v else jsGetField rest key

/-- Array indexing, `undefined` out of bounds, as in JavaScript. -/
def jsIndexNat (xs : List JsVal) (i : Nat) : JsVal :=
  (xs.get? i).getD JsVal.undef

/-- Decimal parse of a path component, used for array indices ("0" parses,
"value" does not), modelling how a lodash path key acts on an array. -/
def parseIndexAux : List Char → Nat → Option Nat
  | [], acc => some acc
  | c :: cs, acc =>
    if 48 ≤ c.toNat && c.toNat ≤ 57 then parseIndexAux cs (acc * 10 + (c.toNat - 48))
    else none

def parseIndex (s : String) : Option Nat :=
  match s.data with
  | [] => none
  | l => parseIndexAux l 0

/-- lodash `_.get` path traversal: objects are accessed by field, arrays by
numeric index; any other access yields `undefined`. -/
def jsGetPath : JsVal → List String → JsVal
  | v, [] => v
  | JsVal.obj fs, k :: ks => jsGetPath (jsGetField fs k) ks
  | JsVal.arr xs, k :: ks =>
    match parseIndex k with
    | some i => jsGetPath (jsIndexNat xs i) ks
    | none => JsVal.undef
  | JsVal.str _, _ :: _ => JsVal.undef
  | JsVal.undef, _ :: _ => JsVal.undef

/-- lodash `_.get` with a default: the default replaces an `undefined` result. -/
def jsGetD (v : JsVal) (p : List String) (d : JsVal) : JsVal :=
  match jsGetPath v p with
  | JsVal.undef => d
  | r => r

/-- An annotation entry `{key: k, value: v}` as a JavaScript object. -/
def annotJs (p : String × String) : JsVal :=
  JsVal.obj [("key", JsVal.str p.1), ("value", JsVal.str p.2)]

/-- The distinct keys of an annotation list, in first-occurrence order,
matching the key order of a lodash `groupBy` result. -/
def keysInOrder : List (String × String) → List String
  | [] => []
  | (k, _) :: rest => k :: (keysInOrder rest).filter (fun x => !(x == k))

/-- `_.groupBy(annotations, 'key')`: an object mapping each key to the array
of annotation entries carrying that key, in original order. -/
def groupByKey (l : List (String × String)) : JsVal :=
  JsVal.obj ((keysInOrder l).map
    (fun k => (k, JsVal.arr ((l.filter (fun p => p.1 == k)).map annotJs))))

/-- The recorded fingerprint as read by `openwhisk$check_existing_action`
(src/tasks.js line 142): `_.get(groups, 'md5sum[0].value', 'n/a')`. -/
def existingMd5Tasks (l : List (String × String)) : JsVal :=
  jsGetD (groupByKey l) ["md5sum", "0", "value"] (JsVal.str "n/a")

/-- The recorded fingerprint as read by
`check_action$update_action$check_existing` (src/index.js line 134):
`_.get(groups, 'md5sum.value', 'n/a')`. -/
def existingMd5Index (l : List (String × String)) : JsVal :=
  jsGetD (groupByKey l) ["md5sum", "value"] (JsVal.str "n/a")

/-- `_.isEqual(v, s)` between a looked-up value and a string checksum. -/
def jsIsStrEq : JsVal → String → Bool
  | JsVal.str a, b => a == b
  | _, _ => false

/-! ### Promise outcomes and the remote existence check

A settled promise is modelled as `Except String α`: `ok` for a fulfilled
promise, `error` for a rejected one.  `.then` propagates rejections,
`.catch` turns a rejection into the handler's result. -/

def jsThen {α β : Type} (p : Except String α) (f : α → Except String β) :
    Except String β :=
  match p with
  | Except.ok a => f a
  | Except.error e => Except.error e

def jsCatch {α : Type} (p : Except String α) (f : String → Except String α) :
    Except String α :=
  match p with
  | Except.ok a => Except.ok a
  | Except.error e => f e

def exceptIsOk {α : Type} : Except String α → Bool
  | Except.ok _ => true
  | Except.error _ => false

/-- The metadata returned by `openwhisk().actions.get`, reduced to the part
the existence checks read: the annotation list (key/value pairs). -/
structure OwActionMeta where
  annots : List (String × String)
deriving DecidableEq

/-- Result shape of `openwhisk$check_existing_action` (src/tasks.js):
`{action: result, update}` on success, `{update: true}` on any error. -/
structure CheckResult where
  update : Bool
  existing : Option OwActionMeta
deriving DecidableEq

/-- Result shape of `check_action$update_action$check_existing`
(src/index.js): `{action: result, update, md5sum}` / `{update: true, md5sum}`. -/
structure CheckResultIdx where
  update : Bool
  md5sum : String
  existing : Option OwActionMeta
deriving DecidableEq

/-- src/tasks.js lines 137-156, `openwhisk$check_existing_action`:
`actions.get` then compare the recorded fingerprint (path `'md5sum[0].value'`)
with the local one; any rejection of the get is caught and mapped to
`{update: true}`.  `remoteGet` is the settled outcome of the gateway call. -/
def check_existing_action (md5sum : String)
    (remoteGet : Except String OwActionMeta) : Except String CheckResult :=
  jsCatch
    (jsThen remoteGet (fun result =>
      Except.ok
        { update := !(jsIsStrEq (existingMd5Tasks result.annots) md5sum),
          existing := some result }))
    (fun _ => Except.ok { update := true, existing := none })

/-- src/index.js lines 123-150, `check_action$update_action$check_existing`:
same structure, but the recorded fingerprint is read with the path
`'md5sum.value'` (see `existingMd5Index`). -/
def update_action_check_existing (md5sum : String)
    (remoteGet : Except String OwActionMeta) : Except String CheckResultIdx :=
  jsCatch
    (jsThen remoteGet (fun result =>
      Except.ok
        { update := !(jsIsStrEq (existingMd5Index result.annots) md5sum),
          md5sum := md5sum,
          existing := some result }))
    (fun _ => Except.ok { update := true, md5sum := md5sum, existing := none })

/-! ### The synchronization engine over a package-scoped remote state

The per-step semantics below come from src/tasks.js
(`openwhisk$check_existing_action`, `openwhisk$upload_action`,
`openwhisk$delete_actions`).  The remote state is the set of action units
under the target package; the gateway routes `get`, `create`, `update` and
`delete` by package-qualified name, and `list` filtered to the package
yields exactly these units. -/

/-- A local action at CHECKED state: resolved name, freshly computed
fingerprint, and the user-configured annotation entries passed through. -/
structure LocalAction where
  name : String
  fingerprint : String
  annots : List (String × String)
deriving DecidableEq

/-- A remote action unit under the target package. -/
structure RemoteUnit where
  name : String
  annots : List (String × String)
deriving DecidableEq

/-- The gateway get of `package/name`: the unit of that name, if any. -/
def findRemote (s : List RemoteUnit) (n : String) : Option RemoteUnit :=
  s.find? (fun r => r.name == n)

/-- The `update` flag derived by `openwhisk$check_existing_action`: a failed
get (no such unit) yields true (the catch handler); otherwise true iff the
recorded fingerprint read via `'md5sum[0].value'` differs from the local
one. -/
def needsUpload (s : List RemoteUnit) (a : LocalAction) : Bool :=
  match findRemote s a.name with
  | none => true
  | some r => !(jsIsStrEq (existingMd5Tasks r.annots) a.fingerprint)

/-- The remote unit after `openwhisk$upload_action` ran for `a`: the create
call overwrites the unit (archive content, no annotations left), then the
update call writes `concat(create result annotations, action annotations,
[{key: 'md5sum', value: fingerprint}])`. -/
def uploadedUnit (a : LocalAction) : RemoteUnit :=
  { name := a.name, annots := a.annots ++ [("md5sum", a.fingerprint)] }

/-- Effect of one upload on the package's remote state: overwrite the unit
of that name, or add it. -/
def applyUpload (s : List RemoteUnit) (a : LocalAction) : List RemoteUnit :=
  if (findRemote s a.name).isSome then
    s.map (fun r => if r.name == a.name then uploadedUnit a else r)
  else
    s ++ [uploadedUnit a]

/-- Modelled from the spec: the run driver that wires the tasks.js steps
together is not among the source files (src/index.js carries an older
self-contained variant), so per §4.3/§4.4 the actions are processed
sequentially: each action is checked and, if `needsUpload`, uploaded,
before the next begins.  Returns the final state and the upload count. -/
def syncActions : List LocalAction → List RemoteUnit → List RemoteUnit × Nat
  | [], s => (s, 0)
  | a :: rest, s =>
    if needsUpload s a then
      let p := syncActions rest (applyUpload s a)
      (p.1, p.2 + 1)
    else
      syncActions rest s

/-- Reconciliation (src/tasks.js `openwhisk$delete_actions`, restricted to
the package's units): every unit whose name is not among the processed
names (`_.indexOf(actions, name) < 0`) is an orphan and is deleted.
Returns the remaining state and the number of delete calls. -/
def reconcile (s : List RemoteUnit) (processed : List String) :
    List RemoteUnit × Nat :=
  ((s.filter (fun r => processed.contains r.name)),
    ((s.map RemoteUnit.name).filter (fun n => !(processed.contains n))).length)

/-- Modelled from the spec: one full synchronization pass (§4.3) — process
every action, then reconcile against the list of processed names.  Returns
the final remote state, the upload count and the delete count. -/
def runEngine (locals : List LocalAction) (s0 : List RemoteUnit) :
    List RemoteUnit × Nat × Nat :=
  let p := syncActions locals s0
  let q := reconcile p.1 (locals.map LocalAction.name)
  (q.1, p.2, q.2)

/-! ### Scheduling trace of `check_actions_from_dir` (src/index.js 238-249)

`check_actions_from_dir` runs
`Promise.all(_.map(files, file => check_action_from_dir(...)))`.
`_.map` invokes `check_action_from_dir` for every file eagerly, so each
file's synchronous prefix (existsSync, lstatSync, reading
openwhisk.action.json, resolving the action name) runs at map time, before
`Promise.all` awaits any of the asynchronous chains.  The trace below
models the schedule most favourably to sequential processing: all
synchronous prefixes in discovery order, then the asynchronous steps of
each chain, run to completion one chain at a time (the real event loop
interleaves the chains even more). -/

inductive PEv where
  | readConfig : Nat → PEv
  | build : Nat → PEv
  | archive : Nat → PEv
  | checkRemote : Nat → PEv
  | resolve : Nat → PEv
deriving DecidableEq

/-- The asynchronous steps of one action's chain, in their `.then` order:
npm install, archive creation, existence check, conditional upload
resolution. -/
def actionAsyncSteps (i : Nat) : List PEv :=
  [PEv.build i, PEv.archive i, PEv.checkRemote i, PEv.resolve i]

/-- The event trace of `check_actions_from_dir` over `n` discovered action
directories. -/
def check_actions_trace (n : Nat) : List PEv :=
  ((List.range n).map PEv.readConfig) ++ ((List.range n).flatMap actionAsyncSteps)

/-! ### The build step (`npm_install`, src/tasks.js 91-101) -/

/-- Outcome of `exec('npm install --only=production')`: the error argument
(if the command failed) and the captured output streams. -/
structure ExecOutcome where
  err : Option String
  stdout : String
  stderr : String
deriving DecidableEq

/-- src/tasks.js `npm_install` (and identically `check_action$npm_install`
in src/index.js): the exec callback logs and calls `resolve()` without ever
inspecting its `error` argument, so the promise is fulfilled no matter how
the build went. -/
def npm_install (outcome : ExecOutcome) : Except String Unit :=
  match outcome with
  | _ => Except.ok ()

/-- Sequential build phase over the discovered action directories, indexed
from 0: stop at the first rejected build, recording which builds were
invoked. -/
def buildSeq : Nat → List ExecOutcome → List Nat × Except String Unit
  | _, [] => ([], Except.ok ())
  | i, o :: rest =>
    match npm_install o with
    | Except.error e => ([i], Except.error e)
    | Except.ok _ =>
      let p := buildSeq (i + 1) rest
      (i :: p.1, p.2)

/-! ### Reconciliation deletes (`openwhisk$delete_actions`, src/tasks.js) -/

def charsStartsWith : List Char → List Char → Bool
  | _, [] => true
  | [], _ :: _ => false
  | a :: as, b :: bs => a == b && charsStartsWith as bs

def charsContains : List Char → List Char → Bool
  | [], pat => pat.isEmpty
  | a :: as, pat => charsStartsWith (a :: as) pat || charsContains as pat

/-- JavaScript `s.indexOf(pat) > -1`: substring containment. -/
def strContains (s pat : String) : Bool :=
  charsContains s.data pat.data

/-- One entry of the `actions.list()` response: action name and its
namespace path. -/
structure OwEntry where
  name : String
  nspace : String
deriving DecidableEq

/-- src/tasks.js lines 184-192: the orphan names — entries whose namespace
CONTAINS `'/' + package_name` as a substring, minus the processed names. -/
def orphanNames (existing : List OwEntry) (processed : List String)
    (pkg : String) : List String :=
  ((existing.filter (fun e => strContains e.nspace ("/" ++ pkg))).map
      OwEntry.name).filter
    (fun n => !(processed.contains n))

/-- Modelled from the spec: a namespace "matches" the target package when
the namespace path is `<owner>/<package>`, i.e. ends with a slash followed
by the package name (spec §4.3/§6, "entries whose namespace matches the
target package"); stated for comparison with the source's substring test. -/
def specNsMatches (pkg ns : String) : Bool :=
  charsStartsWith ns.data.reverse ("/" ++ pkg).data.reverse

/-- The recursive delete loop of `openwhisk$delete_actions` with a fallible
gateway: `ow.actions.delete(a).then(... delete rest ...)` — there is no
catch, so the first rejection short-circuits the rest of the chain.
Returns the names actually passed to the gateway and the loop's outcome. -/
def deleteLoopFallible (gw : String → Except String Unit) :
    List String → List String × Except String Unit
  | [] => ([], Except.ok ())
  | a :: rest =>
    match gw a with
    | Except.error e => ([a], Except.error e)
    | Except.ok _ =>
      let p := deleteLoopFallible gw rest
      (a :: p.1, p.2)

/-- The full reconciliation with an always-successful gateway: the deleted
names are the orphans, in list order. -/
def delete_actions_trace (existing : List OwEntry) (processed : List String)
    (pkg : String) : List String :=
  (deleteLoopFallible (fun _ => Except.ok ())
    (orphanNames existing processed pkg)).1

/-- A gateway whose delete of "o1" is rejected and which fulfills any other
delete; used to exercise the loop's failure behaviour. -/
def failingGw : String → Except String Unit :=
  fun n => if n == "o1" then Except.error "delete o1 failed" else Except.ok ()

/-! ### Upload as two remote calls (`openwhisk$upload_action`, tasks.js) -/

/-- The action descriptor reaching `openwhisk$upload_action`: name, fresh
fingerprint, the derived update flag, and configured annotation entries. -/
structure UploadInput where
  name : String
  md5sum : String
  update : Bool
  annots : List (String × String)
deriving DecidableEq

/-- The remote unit's state as observable between gateway calls. -/
structure RemoteSnapshot where
  content : Option String
  annots : List (String × String)
deriving DecidableEq

/-- `ow.actions.create` with `overwrite: true` and only the archive bytes:
the unit now holds the new content and no annotations (§6 overwrite
semantics). -/
def owCreateOverwrite (archive : String) : RemoteSnapshot :=
  { content := some archive, annots := [] }

/-- `ow.actions.update` writing the assembled annotation list. -/
def owUpdateAnnots (s : RemoteSnapshot) (newAnnots : List (String × String)) :
    RemoteSnapshot :=
  { s with annots := newAnnots }

/-- src/tasks.js lines 207-238: if `update`, first remote call uploads the
archive (`actions.create`), second remote call writes the annotations
`concat(create result annotations, action annotations, [{key: 'md5sum',
value: md5sum}])` (`actions.update`); otherwise no remote call at all.
Returns the sequence of remote states after each network call. -/
def upload_action (a : UploadInput) (archive : String) : List RemoteSnapshot :=
  if a.update then
    let s1 := owCreateOverwrite archive
    let s2 := owUpdateAnnots s1 (s1.annots ++ a.annots ++ [("md5sum", a.md5sum)])
    [s1, s2]
  else []

/-! ### The fingerprint engine (`create_md5sum`, tasks.js + `read_filelist`)

`read_filelist` lists the directory with `glob.sync('**', {cwd})`; glob
sorts its matches alphabetically by default (`nosort` not set), which we
model with an explicit insertion sort under the character-wise path order
`pathLe`.  `minimatch` and the stat file-type test are external and appear
as predicate parameters; the md5 function and the file contents likewise. -/

def charsLe : List Char → List Char → Bool
  | [], _ => true
  | _ :: _, [] => false
  | a :: as, b :: bs => if a < b then true else if b < a then false else charsLe as bs

def pathLe (a b : String) : Bool :=
  charsLe a.data b.data

/-- The utils file's `read_filelist(directory, ignorelist, 'f', true)`:
glob's sorted recursive listing, minus entries matching any ignore pattern
(`_.findIndex(ignorelist, entry => minimatch(file, entry)) < 0`), kept only
if the stat says regular file.  `osEntries` is the raw OS listing in
arbitrary traversal order. -/
def read_filelist (osEntries ignorelist : List String)
    (isMatch : String → String → Bool) (isFile : String → Bool) : List String :=
  ((List.insertionSort (fun a b => pathLe a b = true) osEntries).filter
      (fun file => !(ignorelist.any (fun entry => isMatch file entry)))).filter
    (fun file => isFile file)

/-- src/tasks.js lines 50-63 `create_md5sum`: concatenate the md5 of every
listed file's content, in the listed order, starting from the empty string,
then hash the concatenation. -/
def create_md5sum (md5 content : String → String)
    (osEntries ignorelist : List String) (isMatch : String → String → Bool)
    (isFile : String → Bool) : String :=
  md5 ((read_filelist osEntries ignorelist isMatch isFile).foldl
    (fun h file => h ++ md5 (content file)) "")

/-! ### Per-directory guard (`check_action_from_dir`, src/index.js 226-236) -/

inductive ActionStep where
  | npmInstall : ActionStep
  | createArchive : ActionStep
  | fingerprintArchive : ActionStep
  | remoteGet : ActionStep
  | remoteCreate : ActionStep
  | remoteUpdate : ActionStep
deriving DecidableEq

/-- The steps `check_action` performs for a directory entry: build, archive,
fingerprint of the archive, existence check, then the two upload calls when
the check demands an update. -/
def check_action_steps (needsUp : Bool) : List ActionStep :=
  [ActionStep.npmInstall, ActionStep.createArchive,
   ActionStep.fingerprintArchive, ActionStep.remoteGet]
    ++ (if needsUp then [ActionStep.remoteCreate, ActionStep.remoteUpdate] else [])

/-- src/index.js `check_action_from_dir`: if the path exists and is a
directory, the action is processed (`check_action`); otherwise the function
returns `Promise.resolve()` — fulfilled, with no step performed. -/
def check_action_from_dir (pathIsThere isDirectory needsUp : Bool) :
    Except String (List ActionStep) :=
  if pathIsThere && isDirectory then Except.ok (check_action_steps needsUp)
  else Except.ok []

/-! ### Characterisation of the two lookups -/

theorem jsGetField_map (f : String → JsVal) :
    ∀ (ks : List String) (key : String),
      jsGetField (ks.map (fun k => (k, f k))) key
        = if key ∈ ks then f key else JsVal.undef
  | [], key => by simp [jsGetField]
  | k :: ks, key => by
    simp only [List.map_cons, jsGetField]
    by_cases h : k = key
    · subst h
      simp
    · have hb : (k == key) = false := by simpa using h
      rw [hb]
      simp only [Bool.false_eq_true, if_false]
      rw [jsGetField_map f ks key]
      by_cases hk : key ∈ ks
      · rw [if_pos hk, if_pos (List.mem_cons_of_mem _ hk)]
      · rw [if_neg hk, if_neg (show ¬ key ∈ k :: ks by
          intro hc
          rcases List.mem_cons.mp hc with he | ht
          · exact h he.symm
          · exact hk ht)]

theorem mem_keysInOrder :
    ∀ (l : List (String × String)) (k : String),
      k ∈ keysInOrder l ↔ k ∈ l.map Prod.fst
  | [], k => by simp [keysInOrder]
  | (k0, v0) :: rest, k => by
    simp only [keysInOrder, List.map_cons]
    constructor
    · intro hk
      rcases List.mem_cons.mp hk with h1 | h1
      · exact List.mem_cons.mpr (Or.inl h1)
      · have h2 := List.mem_filter.mp h1
        exact List.mem_cons.mpr (Or.inr ((mem_keysInOrder rest k).mp h2.1))
    · intro hk
      rcases List.mem_cons.mp hk with h1 | h1
      · exact List.mem_cons.mpr (Or.inl h1)
      · by_cases h : k = k0
        · exact List.mem_cons.mpr (Or.inl h)
        · refine List.mem_cons.mpr (Or.inr (List.mem_filter.mpr
            ⟨(mem_keysInOrder rest k).mpr h1, ?_⟩))
          simpa using h

theorem head?_filter_eq_find? {α : Type} :
    ∀ (l : List α) (p : α → Bool), (l.filter p).head? = l.find? p
  | [], _ => rfl
  | x :: xs, p => by
    by_cases h : p x = true
    · simp [List.filter_cons, List.find?_cons, h]
    · have hf : p x = false := by simpa using h
      simp [List.filter_cons, List.find?_cons, hf, head?_filter_eq_find? xs p]

/-- What tasks.js reads back: the `value` of the first annotation entry whose
key is "md5sum", defaulting to "n/a" when no such entry exists. -/
theorem existingMd5Tasks_eq (l : List (String × String)) :
    existingMd5Tasks l
      = JsVal.str (match l.find? (fun p => p.1 == "md5sum") with
          | some p => p.2
          | none => "n/a") := by
  unfold existingMd5Tasks groupByKey
  have hfield := jsGetField_map
    (fun k => JsVal.arr ((l.filter (fun p => p.1 == k)).map annotJs))
    (keysInOrder l) "md5sum"
  by_cases hmem : "md5sum" ∈ keysInOrder l
  · rw [if_pos hmem] at hfield
    have hfind : ∃ p0, l.find? (fun p => p.1 == "md5sum") = some p0 := by
      cases hf : l.find? (fun p => p.1 == "md5sum") with
      | some p0 => exact ⟨p0, rfl⟩
      | none =>
        rw [List.find?_eq_none] at hf
        have : "md5sum" ∈ l.map Prod.fst := (mem_keysInOrder l "md5sum").mp hmem
        rcases List.mem_map.mp this with ⟨p, hp, hfst⟩
        exact absurd (show (p.1 == "md5sum") = true by simp [hfst]) (hf p hp)
    rcases hfind with ⟨p0, hp0⟩
    have hhead : (l.filter (fun p => p.1 == "md5sum")).head? = some p0 := by
      rw [head?_filter_eq_find?]; exact hp0
    rcases hq : l.filter (fun p => p.1 == "md5sum") with _ | ⟨q, qs⟩
    · rw [hq] at hhead; simp at hhead
    · rw [hq] at hhead
      have hqp : q = p0 := by simpa using hhead
      subst hqp
      show jsGetD (JsVal.obj _) _ _ = _
      unfold jsGetD
      rw [show jsGetPath (JsVal.obj ((keysInOrder l).map
            (fun k => (k, JsVal.arr ((l.filter (fun p => p.1 == k)).map annotJs)))))
            ["md5sum", "0", "value"]
          = jsGetPath (jsGetField ((keysInOrder l).map
              (fun k => (k, JsVal.arr ((l.filter (fun p => p.1 == k)).map annotJs))))
              "md5sum") ["0", "value"] from rfl]
      rw [hfield, hq]
      show (match jsGetPath (JsVal.str q.2) [] with
            | JsVal.undef => JsVal.str "n/a"
            | r => r) = _
      rw [hp0]
      rfl
  · rw [if_neg hmem] at hfield
    have hfind : l.find? (fun p => p.1 == "md5sum") = none := by
      rw [List.find?_eq_none]
      intro p hp hb
      exact hmem ((mem_keysInOrder l "md5sum").mpr
        (List.mem_map.mpr ⟨p, hp, by simpa using hb⟩))
    unfold jsGetD
    rw [show jsGetPath (JsVal.obj ((keysInOrder l).map
          (fun k => (k, JsVal.arr ((l.filter (fun p => p.1 == k)).map annotJs)))))
          ["md5sum", "0", "value"]
        = jsGetPath (jsGetField ((keysInOrder l).map
            (fun k => (k, JsVal.arr ((l.filter (fun p => p.1 == k)).map annotJs))))
            "md5sum") ["0", "value"] from rfl]
    rw [hfield, hfind]
    rfl

/-- What index.js reads back: always "n/a".  The `groupBy` result maps
"md5sum" to an ARRAY of entries, and the path `'md5sum.value'` asks for the
field `value` of that array, which is undefined, so the default "n/a" is
returned even when a recorded fingerprint exists. -/
theorem existingMd5Index_na (l : List (String × String)) :
    existingMd5Index l = JsVal.str "n/a" := by
  unfold existingMd5Index groupByKey
  have hfield := jsGetField_map
    (fun k => JsVal.arr ((l.filter (fun p => p.1 == k)).map annotJs))
    (keysInOrder l) "md5sum"
  unfold jsGetD
  rw [show jsGetPath (JsVal.obj ((keysInOrder l).map
        (fun k => (k, JsVal.arr ((l.filter (fun p => p.1 == k)).map annotJs)))))
        ["md5sum", "value"]
      = jsGetPath (jsGetField ((keysInOrder l).map
          (fun k => (k, JsVal.arr ((l.filter (fun p => p.1 == k)).map annotJs))))
          "md5sum") ["value"] from rfl]
  rw [hfield]
  by_cases hmem : "md5sum" ∈ keysInOrder l
  · rw [if_pos hmem]; rfl
  · rw [if_neg hmem]; rfl

/-! ### C1: what the existence checks actually decide -/

/-- C1: the claim states that the existence check returns needsUpload = true
iff the remote action does not exist or its recorded 'md5sum' annotation
value differs from the freshly computed local fingerprint.  tasks.js's
`openwhisk$check_existing_action` satisfies this, but index.js's
`check_action$update_action$check_existing` — the check the shipped entry
point actually runs — does not: its lodash path `'md5sum.value'` misses the
array produced by `groupBy`, always yields the default "n/a", and therefore
returns update = true even when the recorded fingerprint equals the local
one.  At the failing input (remote action exists, recorded md5sum "h1",
local fingerprint "h1") index.js decides to re-upload while the claim (and
tasks.js) require update = false.  This contradicts the repository's own
README ("if you have no changes made to your action it will not be
updated"), so the code, not the claim, is wrong. -/
theorem c1_md5_annotation_lookup_bug :
    update_action_check_existing "h1" (Except.ok ⟨[("md5sum", "h1")]⟩)
      = Except.ok ⟨true, "h1", some ⟨[("md5sum", "h1")]⟩⟩
    ∧ check_existing_action "h1" (Except.ok ⟨[("md5sum", "h1")]⟩)
      = Except.ok ⟨false, some ⟨[("md5sum", "h1")]⟩⟩
    ∧ existingMd5Index [("md5sum", "h1")] = JsVal.str "n/a"
    ∧ existingMd5Tasks [("md5sum", "h1")] = JsVal.str "h1" := by
  refine ⟨rfl, rfl, rfl, rfl⟩

/-! ### C9: the existence check never rejects -/

/-- C9: `openwhisk$check_existing_action` never rejects: for every settled
outcome of the gateway get it produces a fulfilled result, and every error
outcome — not only a NotFound response — is mapped by the catch handler to
`{update: true}`, silently forcing a full re-upload instead of aborting. -/
theorem c9_check_never_rejects :
    (∀ (m : String) (g : Except String OwActionMeta),
      exceptIsOk (check_existing_action m g) = true)
    ∧ (∀ (m e : String),
      check_existing_action m (Except.error e)
        = Except.ok { update := true, existing := none }) := by
  constructor
  · intro m g
    cases g <;> rfl
  · intro m e
    rfl

/-! ### C3: is processing across actions strictly sequential? -/

theorem flatMap_decompose {α β : Type} (f : α → List β) :
    ∀ (l : List α) (x : α), x ∈ l →
      ∃ pre post, l.flatMap f = pre ++ (f x ++ post)
  | [], x, hx => absurd hx (List.not_mem_nil x)
  | y :: ys, x, hx => by
    rcases List.mem_cons.mp hx with h | h
    · subst h
      exact ⟨[], ys.flatMap f, by simp⟩
    · rcases flatMap_decompose f ys x h with ⟨pre, post, hp⟩
      exact ⟨f y ++ pre, post, by simp [hp]⟩

/-- C3 counterexample: with two discovered action directories, action 1's
processing begins (its synchronous prefix — reading its configuration —
runs at `_.map` time) before action 0 reaches RESOLVED, because
`check_actions_from_dir` maps eagerly and awaits with `Promise.all` instead
of chaining sequentially.  So it is NOT the case that action 0 fully
resolves before any processing of action 1 begins. -/
theorem c3_counterexample :
    ¬ ((check_actions_trace 2).findIdx (fun e => e = PEv.resolve 0)
        < (check_actions_trace 2).findIdx (fun e => e = PEv.readConfig 1)) := by
  decide

/-- C3 amended: processing across actions is overlapped, not sequential:
every action's synchronous prefix (config read) runs, in discovery order,
before any action's asynchronous steps; within one action the asynchronous
steps do run in their chained order (build, archive, check, resolve),
contiguously under this schedule. -/
theorem c3_overlapped_schedule (n i j : Nat) (hi : i < n) (hj : j < n) :
    (∃ pre post, check_actions_trace n
        = ((List.range n).map PEv.readConfig) ++ (pre ++ (actionAsyncSteps i ++ post)))
    ∧ PEv.readConfig j ∈ (List.range n).map PEv.readConfig := by
  constructor
  · rcases flatMap_decompose actionAsyncSteps (List.range n) i
      (List.mem_range.mpr hi) with ⟨pre, post, hp⟩
    exact ⟨pre, post, by rw [check_actions_trace, hp]⟩
  · exact List.mem_map.mpr ⟨j, List.mem_range.mpr hj, rfl⟩

theorem c3_overlapped_schedule_witness :
    (∃ pre post, check_actions_trace 2
        = ((List.range 2).map PEv.readConfig) ++ (pre ++ (actionAsyncSteps 0 ++ post)))
    ∧ PEv.readConfig 1 ∈ (List.range 2).map PEv.readConfig :=
  c3_overlapped_schedule 2 0 1 (by decide) (by decide)

/-! ### C4: build failures do not abort the run -/

/-- C4: the claim states a failing `npm install` aborts the run and later
actions are never built.  In the code the exec callback ignores its error
argument and always resolves, so with three action directories whose second
build fails, all three builds are invoked and the build phase completes
fulfilled — the run is not aborted.  The promise executor's `reject` is
never called, evidence that propagating the failure was intended. -/
theorem c4_build_failure_ignored :
    npm_install ⟨some "exit 1", "", "npm ERR"⟩ = Except.ok ()
    ∧ buildSeq 0 [⟨none, "", ""⟩, ⟨some "exit 1", "", "npm ERR"⟩, ⟨none, "", ""⟩]
        = ([0, 1, 2], Except.ok ()) :=
  ⟨rfl, rfl⟩

/-! ### C5: which remote units does reconciliation delete? -/

/-- C5 counterexample: the source filters the listed actions with
`namespace.indexOf('/' + package_name) > -1`, a substring test, not a match
of the namespace against the target package.  For package "foo", the entry
named "x" in namespace "ns/foo2" — a different package — is treated as
in-package and deleted (processed names empty), although its namespace does
not match package "foo"; the claim predicts the deleted set { } here. -/
theorem c5_counterexample :
    delete_actions_trace [⟨"x", "ns/foo2"⟩] [] "foo" = ["x"]
    ∧ specNsMatches "foo" "ns/foo2" = false :=
  ⟨rfl, rfl⟩

/-- C5 amended: the deleted names are exactly the names of the remote
entries whose namespace CONTAINS `'/' + package` as a substring, minus the
processed names (set difference by name); restricted to entries of the
target package this is the claimed orphan set. -/
theorem c5_deleted_set (existing : List OwEntry) (processed : List String)
    (pkg : String) (n : String) :
    n ∈ delete_actions_trace existing processed pkg
      ↔ ((∃ e ∈ existing, e.name = n ∧ strContains e.nspace ("/" ++ pkg) = true)
          ∧ ¬ n ∈ processed) := by
  have hid : ∀ l : List String,
      (deleteLoopFallible (fun _ => Except.ok ()) l).1 = l := by
    intro l
    induction l with
    | nil => rfl
    | cons a rest ih => simp [deleteLoopFallible, ih]
  unfold delete_actions_trace orphanNames
  rw [hid]
  simp only [List.mem_filter, List.mem_map, List.mem_filter]
  constructor
  · rintro ⟨⟨e, ⟨he, hns⟩, hname⟩, hproc⟩
    simp at hproc
    exact ⟨⟨e, he, hname, hns⟩, hproc⟩
  · rintro ⟨⟨e, he, hname, hns⟩, hproc⟩
    exact ⟨⟨e, ⟨he, hns⟩, hname⟩, by simp [hproc]⟩

/-! ### C6: the delete loop stops at the first failure -/

/-- C6 counterexample: with orphans "o1" and "o2" and a gateway that
rejects the deletion of "o1", the loop attempts only "o1": the remaining
orphan is never attempted and only the first failure surfaces, because the
recursive `.then` chain has no catch and no collection of failures. -/
theorem c6_counterexample :
    deleteLoopFallible failingGw ["o1", "o2"]
        = (["o1"], Except.error "delete o1 failed")
    ∧ ¬ "o2" ∈ (deleteLoopFallible failingGw ["o1", "o2"]).1 := by
  refine ⟨rfl, by decide⟩

/-- C6 amended: a failed deletion rejects the whole loop at that point: the
orphans before the failing one are deleted, the failing one is attempted,
the orphans after it are not attempted, and the loop's outcome is exactly
the first failure. -/
theorem c6_delete_stops_at_first_failure (gw : String → Except String Unit)
    (pre : List String) (x : String) (post : List String) (e : String)
    (hpre : ∀ y ∈ pre, gw y = Except.ok ())
    (hx : gw x = Except.error e) :
    deleteLoopFallible gw (pre ++ x :: post) = (pre ++ [x], Except.error e) := by
  induction pre with
  | nil => simp [deleteLoopFallible, hx]
  | cons y ys ih =>
    have hy : gw y = Except.ok () := hpre y (List.mem_cons_self y ys)
    have hrest : ∀ z ∈ ys, gw z = Except.ok () :=
      fun z hz => hpre z (List.mem_cons_of_mem y hz)
    simp [deleteLoopFallible, hy, ih hrest]

theorem c6_delete_stops_witness :
    deleteLoopFallible failingGw ["p", "o1", "o2"]
        = (["p", "o1"], Except.error "delete o1 failed") :=
  c6_delete_stops_at_first_failure failingGw ["p"] "o1" ["o2"] "delete o1 failed"
    (by
      intro y hy
      rw [List.mem_singleton] at hy
      subst hy
      rfl)
    rfl

/-! ### C7: upload and fingerprint write are two separate remote calls -/

theorem existingMd5_append (l : List (String × String)) (v : String)
    (h : ¬ "md5sum" ∈ l.map Prod.fst) :
    existingMd5Tasks (l ++ [("md5sum", v)]) = JsVal.str v := by
  rw [existingMd5Tasks_eq]
  have h1 : l.find? (fun p => p.1 == "md5sum") = none := by
    rw [List.find?_eq_none]
    intro p hp hb
    exact h (List.mem_map.mpr ⟨p, hp, by simpa using hb⟩)
  rw [List.find?_append, h1]
  rfl

/-- C7 counterexample: for an action with needsUpload = true there IS a
reachable intermediate remote state between the two gateway calls of
`openwhisk$upload_action`: after `actions.create` the unit carries the new
content while its recorded fingerprint reads back as the default "n/a",
which differs from the local fingerprint "h1" — the uploaded content and
its matching recorded fingerprint are not one atomic step. -/
theorem c7_counterexample :
    upload_action ⟨"act", "h1", true, []⟩ "Z"
        = [{ content := some "Z", annots := [] },
           { content := some "Z", annots := [("md5sum", "h1")] }]
    ∧ jsIsStrEq (existingMd5Tasks ([] : List (String × String))) "h1" = false :=
  ⟨rfl, rfl⟩

/-- C7 amended: when needsUpload is false no remote call is made; when it is
true the upload is two consecutive remote calls — content create, then the
annotation update whose written list makes the recorded fingerprint read
back equal to the new local fingerprint — with the intermediate state of
`c7_counterexample` between them.  The annotation is only ever written
by the call that directly follows a content create. -/
theorem c7_upload_two_calls (a : UploadInput) (archive : String)
    (hmd : ¬ "md5sum" ∈ a.annots.map Prod.fst) :
    (a.update = false → upload_action a archive = [])
    ∧ (a.update = true →
        upload_action a archive
          = [owCreateOverwrite archive,
             { content := some archive,
               annots := a.annots ++ [("md5sum", a.md5sum)] }]
        ∧ jsIsStrEq (existingMd5Tasks (a.annots ++ [("md5sum", a.md5sum)]))
            a.md5sum = true) := by
  constructor
  · intro h
    simp [upload_action, h]
  · intro h
    constructor
    · simp [upload_action, h, owCreateOverwrite, owUpdateAnnots]
    · rw [existingMd5_append a.annots a.md5sum hmd]
      simp [jsIsStrEq]

theorem c7_upload_two_calls_witness :
    upload_action ⟨"w", "hw", true, [("k", "v")]⟩ "ZZ"
        = [owCreateOverwrite "ZZ",
           { content := some "ZZ", annots := [("k", "v"), ("md5sum", "hw")] }]
    ∧ jsIsStrEq (existingMd5Tasks [("k", "v"), ("md5sum", "hw")]) "hw" = true :=
  (c7_upload_two_calls ⟨"w", "hw", true, [("k", "v")]⟩ "ZZ" (by decide)).2 rfl

/-! ### C8: fingerprint determinism -/

theorem charEq_of_not_lt {a b : Char} (h1 : ¬ a < b) (h2 : ¬ b < a) : a = b :=
  le_antisymm (le_of_not_lt h2) (le_of_not_lt h1)

theorem charsLe_total :
    ∀ as bs : List Char, charsLe as bs = true ∨ charsLe bs as = true
  | [], _ => Or.inl rfl
  | _ :: _, [] => Or.inr rfl
  | a :: as, b :: bs => by
    by_cases h1 : a < b
    · exact Or.inl (by simp [charsLe, h1])
    · by_cases h2 : b < a
      · exact Or.inr (by simp [charsLe, h2])
      · rcases charsLe_total as bs with h | h
        · exact Or.inl (by simp [charsLe, h1, h2, h])
        · exact Or.inr (by simp [charsLe, h2, h1, h])

theorem charsLe_trans :
    ∀ as bs cs : List Char,
      charsLe as bs = true → charsLe bs cs = true → charsLe as cs = true
  | [], _, _, _, _ => rfl
  | _ :: _, [], _, h1, _ => by simp [charsLe] at h1
  | _ :: _, _ :: _, [], _, h2 => by simp [charsLe] at h2
  | a :: as, b :: bs, c :: cs, h1, h2 => by
    simp only [charsLe] at h1 h2 ⊢
    by_cases hab : a < b
    · rw [if_pos hab] at h1
      by_cases hbc : b < c
      · simp [lt_trans hab hbc]
      · rw [if_neg hbc] at h2
        by_cases hcb : c < b
        · rw [if_pos hcb] at h2
          exact absurd h2 (by simp)
        · have hbceq : b = c := charEq_of_not_lt hbc hcb
          simp [hbceq ▸ hab]
    · rw [if_neg hab] at h1
      by_cases hba : b < a
      · rw [if_pos hba] at h1
        exact absurd h1 (by simp)
      · rw [if_neg hba] at h1
        have habeq : a = b := charEq_of_not_lt hab hba
        by_cases hbc : b < c
        · simp [habeq ▸ hbc]
        · rw [if_neg hbc] at h2
          by_cases hcb : c < b
          · rw [if_pos hcb] at h2
            exact absurd h2 (by simp)
          · rw [if_neg hcb] at h2
            have haceq : a = c := habeq.trans (charEq_of_not_lt hbc hcb)
            have hac : ¬ a < c := by rw [haceq]; exact lt_irrefl c
            have hca : ¬ c < a := by rw [haceq]; exact lt_irrefl c
            rw [if_neg hac, if_neg hca]
            exact charsLe_trans as bs cs h1 h2

theorem charsLe_antisymm :
    ∀ as bs : List Char, charsLe as bs = true → charsLe bs as = true → as = bs
  | [], [], _, _ => rfl
  | [], _ :: _, _, h2 => by simp [charsLe] at h2
  | _ :: _, [], h1, _ => by simp [charsLe] at h1
  | a :: as, b :: bs, h1, h2 => by
    simp only [charsLe] at h1 h2
    by_cases hab : a < b
    · rw [if_neg (lt_asymm hab), if_pos hab] at h2
      exact absurd h2 (by simp)
    · by_cases hba : b < a
      · rw [if_neg (lt_asymm hba), if_pos hba] at h1
        exact absurd h1 (by simp)
      · rw [if_neg hab, if_neg hba] at h1
        rw [if_neg hba, if_neg hab] at h2
        have hd := charsLe_antisymm as bs h1 h2
        have he : a = b := charEq_of_not_lt hab hba
        rw [he, hd]

theorem pathLe_total (a b : String) : pathLe a b = true ∨ pathLe b a = true :=
  charsLe_total a.data b.data

theorem pathLe_trans (a b c : String) :
    pathLe a b = true → pathLe b c = true → pathLe a c = true :=
  charsLe_trans a.data b.data c.data

theorem pathLe_antisymm (a b : String) :
    pathLe a b = true → pathLe b a = true → a = b := by
  intro h1 h2
  have hd : a.data = b.data := charsLe_antisymm a.data b.data h1 h2
  calc a = ⟨a.data⟩ := rfl
    _ = ⟨b.data⟩ := by rw [hd]
    _ = b := rfl

theorem read_filelist_perm_eq (osA osB ignorelist : List String)
    (isMatch : String → String → Bool) (isFile : String → Bool)
    (hperm : osA.Perm osB) :
    read_filelist osA ignorelist isMatch isFile
      = read_filelist osB ignorelist isMatch isFile := by
  unfold read_filelist
  have hsorteq :
      List.insertionSort (fun a b => pathLe a b = true) osA
        = List.insertionSort (fun a b => pathLe a b = true) osB := by
    refine @List.eq_of_perm_of_sorted String (fun a b => pathLe a b = true)
      ⟨pathLe_antisymm⟩ _ _ ?_ ?_ ?_
    · exact ((List.perm_insertionSort _ osA).trans hperm).trans
        (List.perm_insertionSort _ osB).symm
    · exact @List.sorted_insertionSort String (fun a b => pathLe a b = true) _
        ⟨pathLe_total⟩ ⟨pathLe_trans⟩ osA
    · exact @List.sorted_insertionSort String (fun a b => pathLe a b = true) _
        ⟨pathLe_total⟩ ⟨pathLe_trans⟩ osB
  rw [hsorteq]

/-- C8: the fingerprint is the hash of the concatenation, in the sorted
path order produced by glob, of the per-file content hashes of the
non-excluded files; two OS traversals reporting the same file set in any
order yield the identical digest. -/
theorem c8_fingerprint_deterministic (md5 content : String → String)
    (ignorelist : List String) (isMatch : String → String → Bool)
    (isFile : String → Bool) (osA osB : List String) (hperm : osA.Perm osB) :
    create_md5sum md5 content osA ignorelist isMatch isFile
      = create_md5sum md5 content osB ignorelist isMatch isFile
    ∧ List.Sorted (fun a b => pathLe a b = true)
        (read_filelist osA ignorelist isMatch isFile) := by
  constructor
  · unfold create_md5sum
    rw [read_filelist_perm_eq osA osB ignorelist isMatch isFile hperm]
  · unfold read_filelist
    have hsorted := @List.sorted_insertionSort String
      (fun a b => pathLe a b = true) _ ⟨pathLe_total⟩ ⟨pathLe_trans⟩ osA
    exact (hsorted.filter _).filter _

theorem c8_fingerprint_deterministic_witness :
    create_md5sum (fun s => "H" ++ s) (fun s => s) ["b", "a"] []
        (fun _ _ => false) (fun _ => true)
      = create_md5sum (fun s => "H" ++ s) (fun s => s) ["a", "b"] []
        (fun _ _ => false) (fun _ => true)
    ∧ List.Sorted (fun a b => pathLe a b = true)
        (read_filelist ["b", "a"] [] (fun _ _ => false) (fun _ => true)) :=
  c8_fingerprint_deterministic (fun s => "H" ++ s) (fun s => s) []
    (fun _ _ => false) (fun _ => true) ["b", "a"] ["a", "b"] (by decide)

/-! ### C10: non-directory matches are skipped silently -/

/-- C10: for a matched path that does not exist or is not a directory,
`check_action_from_dir` resolves successfully with no build step, no
fingerprint computation and no remote call. -/
theorem c10_non_directory_resolves_without_steps
    (pathIsThere isDirectory needsUp : Bool)
    (h : ¬ (pathIsThere = true ∧ isDirectory = true)) :
    check_action_from_dir pathIsThere isDirectory needsUp = Except.ok [] := by
  unfold check_action_from_dir
  cases pathIsThere <;> cases isDirectory <;> simp_all

theorem c10_non_directory_witness :
    check_action_from_dir true false true = Except.ok [] :=
  c10_non_directory_resolves_without_steps true false true (by simp)

/-! ### C2: idempotent convergence of the synchronization engine -/

theorem uploaded_recorded (a : LocalAction)
    (h : ¬ "md5sum" ∈ a.annots.map Prod.fst) :
    jsIsStrEq (existingMd5Tasks (uploadedUnit a).annots) a.fingerprint = true := by
  show jsIsStrEq (existingMd5Tasks (a.annots ++ [("md5sum", a.fingerprint)]))
    a.fingerprint = true
  rw [existingMd5_append a.annots a.fingerprint h]
  simp [jsIsStrEq]

theorem find?_cons_pos {α : Type} (p : α → Bool) (x : α) (l : List α)
    (h : p x = true) : List.find? p (x :: l) = some x := by
  simp only [List.find?, h]

theorem find?_cons_neg {α : Type} (p : α → Bool) (x : α) (l : List α)
    (h : p x = false) : List.find? p (x :: l) = List.find? p l := by
  simp only [List.find?, h]

theorem find_map_upload_self (a : LocalAction) :
    ∀ s : List RemoteUnit, (findRemote s a.name).isSome = true →
      findRemote (s.map (fun r => if r.name == a.name then uploadedUnit a else r))
          a.name
        = some (uploadedUnit a)
  | [], h => by simp [findRemote] at h
  | r :: rest, h => by
    by_cases hr : (r.name == a.name) = true
    · unfold findRemote
      rw [List.map_cons, if_pos hr]
      exact find?_cons_pos (fun r => r.name == a.name) (uploadedUnit a) _
        (by simp [uploadedUnit])
    · have hr' : (r.name == a.name) = false := by simpa using hr
      unfold findRemote at h ⊢
      rw [find?_cons_neg (fun r => r.name == a.name) r rest hr'] at h
      rw [List.map_cons, if_neg (by simp [hr']),
        find?_cons_neg (fun r => r.name == a.name) r _ hr']
      exact find_map_upload_self a rest h

theorem findRemote_applyUpload_self (s : List RemoteUnit) (a : LocalAction) :
    findRemote (applyUpload s a) a.name = some (uploadedUnit a) := by
  unfold applyUpload
  by_cases hs : (findRemote s a.name).isSome = true
  · rw [if_pos hs]
    exact find_map_upload_self a s hs
  · rw [if_neg hs]
    have hnone : findRemote s a.name = none := by
      cases hfa : findRemote s a.name
      · rfl
      · rw [hfa] at hs
        simp at hs
    unfold findRemote at hnone ⊢
    rw [List.find?_append, hnone]
    rw [find?_cons_pos (fun r => r.name == a.name) (uploadedUnit a) []
      (by simp [uploadedUnit])]
    rfl

theorem find_map_upload_ne (a : LocalAction) (n : String) (hne : ¬ n = a.name) :
    ∀ s : List RemoteUnit,
      findRemote (s.map (fun r => if r.name == a.name then uploadedUnit a else r)) n
        = findRemote s n
  | [] => rfl
  | r :: rest => by
    have h1 : ((uploadedUnit a).name == n) = false := by
      show (a.name == n) = false
      exact beq_eq_false_iff_ne.mpr (fun h => hne h.symm)
    by_cases hr : (r.name == a.name) = true
    · have h2 : (r.name == n) = false := by
        rw [show r.name = a.name from eq_of_beq hr]
        exact h1
      unfold findRemote
      rw [List.map_cons, if_pos hr,
        find?_cons_neg (fun r => r.name == n) (uploadedUnit a) _ h1,
        find?_cons_neg (fun r => r.name == n) r _ h2]
      exact find_map_upload_ne a n hne rest
    · have hr' : (r.name == a.name) = false := by simpa using hr
      unfold findRemote
      rw [List.map_cons, if_neg (by simp [hr'])]
      by_cases hp : (r.name == n) = true
      · rw [find?_cons_pos (fun r => r.name == n) r _ hp,
          find?_cons_pos (fun r => r.name == n) r _ hp]
      · have hp' : (r.name == n) = false := by simpa using hp
        rw [find?_cons_neg (fun r => r.name == n) r _ hp',
          find?_cons_neg (fun r => r.name == n) r _ hp']
        exact find_map_upload_ne a n hne rest

theorem findRemote_applyUpload_ne (s : List RemoteUnit) (a : LocalAction)
    (n : String) (hne : ¬ n = a.name) :
    findRemote (applyUpload s a) n = findRemote s n := by
  unfold applyUpload
  by_cases hs : (findRemote s a.name).isSome = true
  · rw [if_pos hs]
    exact find_map_upload_ne a n hne s
  · rw [if_neg hs]
    have h1 : ((uploadedUnit a).name == n) = false := by
      show (a.name == n) = false
      exact beq_eq_false_iff_ne.mpr (fun h => hne h.symm)
    unfold findRemote
    rw [List.find?_append, find?_cons_neg (fun r => r.name == n) (uploadedUnit a) [] h1]
    cases List.find? (fun r => r.name == n) s <;> rfl

theorem syncActions_preserve (b : LocalAction) :
    ∀ (rest : List LocalAction) (s : List RemoteUnit),
      ¬ b.name ∈ rest.map LocalAction.name →
      needsUpload s b = false →
      needsUpload (syncActions rest s).1 b = false
  | [], s, _, hb => by simpa [syncActions] using hb
  | a :: rest, s, hnotin, hb => by
    have hne : ¬ b.name = a.name := by
      intro he
      exact hnotin (by simp [he])
    have hnotin' : ¬ b.name ∈ rest.map LocalAction.name :=
      fun h => hnotin (by simp [h])
    by_cases h : needsUpload s a = true
    · have hb' : needsUpload (applyUpload s a) b = false := by
        unfold needsUpload at hb ⊢
        rw [findRemote_applyUpload_ne s a b.name hne]
        exact hb
      simpa [syncActions, h] using
        syncActions_preserve b rest (applyUpload s a) hnotin' hb'
    · have h' : needsUpload s a = false := by simpa using h
      simpa [syncActions, h'] using
        syncActions_preserve b rest s hnotin' hb

theorem syncActions_good :
    ∀ (rest : List LocalAction) (s : List RemoteUnit),
      (rest.map LocalAction.name).Nodup →
      (∀ a ∈ rest, ¬ "md5sum" ∈ a.annots.map Prod.fst) →
      ∀ a ∈ rest, needsUpload (syncActions rest s).1 a = false
  | [], _, _, _, a, ha => absurd ha (List.not_mem_nil a)
  | b :: rest, s, hnd, hmd, a, ha => by
    rw [List.map_cons, List.nodup_cons] at hnd
    have hbnotin : ¬ b.name ∈ rest.map LocalAction.name := hnd.1
    have hndr : (rest.map LocalAction.name).Nodup := hnd.2
    have hmdr : ∀ x ∈ rest, ¬ "md5sum" ∈ x.annots.map Prod.fst :=
      fun x hx => hmd x (List.mem_cons_of_mem b hx)
    by_cases h : needsUpload s b = true
    · rcases List.mem_cons.mp ha with hab | harest
      · subst hab
        have hgood : needsUpload (applyUpload s a) a = false := by
          unfold needsUpload
          rw [findRemote_applyUpload_self s a]
          simp [uploaded_recorded a (hmd a (List.mem_cons_self a rest))]
        simpa [syncActions, h] using
          syncActions_preserve a rest (applyUpload s a) hbnotin hgood
      · simpa [syncActions, h] using
          syncActions_good rest (applyUpload s b) hndr hmdr a harest
    · have h' : needsUpload s b = false := by simpa using h
      rcases List.mem_cons.mp ha with hab | harest
      · subst hab
        simpa [syncActions, h'] using
          syncActions_preserve a rest s hbnotin h'
      · simpa [syncActions, h'] using
          syncActions_good rest s hndr hmdr a harest

theorem syncActions_noop :
    ∀ (locals : List LocalAction) (s : List RemoteUnit),
      (∀ a ∈ locals, needsUpload s a = false) →
      syncActions locals s = (s, 0)
  | [], _, _ => rfl
  | a :: rest, s, h => by
    have ha : needsUpload s a = false := h a (List.mem_cons_self a rest)
    have hr : ∀ x ∈ rest, needsUpload s x = false :=
      fun x hx => h x (List.mem_cons_of_mem a hx)
    simp [syncActions, ha, syncActions_noop rest s hr]

theorem find?_filter_of_imp {α : Type} (p q : α → Bool)
    (himp : ∀ x, p x = true → q x = true) :
    ∀ l : List α, (l.filter q).find? p = l.find? p
  | [] => rfl
  | x :: xs => by
    by_cases hq : q x = true
    · rw [List.filter_cons_of_pos hq]
      by_cases hp : p x = true
      · rw [List.find?_cons_of_pos _ hp, List.find?_cons_of_pos _ hp]
      · rw [List.find?_cons_of_neg _ (by simpa using hp),
          List.find?_cons_of_neg _ (by simpa using hp)]
        exact find?_filter_of_imp p q himp xs
    · have hp : ¬ p x = true := fun hc => hq (himp x hc)
      rw [List.filter_cons_of_neg (by simpa using hq),
        List.find?_cons_of_neg _ hp]
      exact find?_filter_of_imp p q himp xs

theorem needsUpload_filter_processed (s : List RemoteUnit)
    (processed : List String) (a : LocalAction)
    (hmem : processed.contains a.name = true) :
    needsUpload (s.filter (fun r => processed.contains r.name)) a
      = needsUpload s a := by
  unfold needsUpload findRemote
  rw [find?_filter_of_imp (fun r => r.name == a.name)
    (fun r => processed.contains r.name) ?himp s]
  case himp =>
    intro x hx
    show processed.contains x.name = true
    rw [show x.name = a.name from by simpa using hx]
    exact hmem

theorem reconcile_deletes_zero (s : List RemoteUnit) (processed : List String)
    (h : ∀ r ∈ s, processed.contains r.name = true) :
    (reconcile s processed).2 = 0 := by
  unfold reconcile
  rw [List.length_eq_zero, List.filter_eq_nil_iff]
  intro n hn
  rcases List.mem_map.mp hn with ⟨r, hr, hname⟩
  subst hname
  show ¬ (!(processed.contains r.name)) = true
  rw [h r hr]
  simp

/-- C2: after one successful run to convergence against an unchanged local
tree, the second run performs zero upload calls and zero delete calls: the
existence check of every action reads a recorded md5sum annotation equal to
the fresh local fingerprint, so needsUpload is false everywhere, and the
orphan set is empty.  Actions carry distinct names and do not configure an
annotation keyed "md5sum" themselves. -/
theorem c2_idempotent_convergence (locals : List LocalAction)
    (s0 : List RemoteUnit)
    (hnd : (locals.map LocalAction.name).Nodup)
    (hmd : ∀ a ∈ locals, ¬ "md5sum" ∈ a.annots.map Prod.fst) :
    (∀ a ∈ locals, needsUpload (runEngine locals s0).1 a = false)
    ∧ (runEngine locals (runEngine locals s0).1).2 = (0, 0) := by
  have hgood1 : ∀ a ∈ locals, needsUpload (syncActions locals s0).1 a = false :=
    syncActions_good locals s0 hnd hmd
  have hstate : (runEngine locals s0).1
      = (syncActions locals s0).1.filter
          (fun r => (locals.map LocalAction.name).contains r.name) := rfl
  have hgood2 : ∀ a ∈ locals, needsUpload (runEngine locals s0).1 a = false := by
    intro a ha
    rw [hstate, needsUpload_filter_processed _ _ a
      (by simp [List.mem_map.mpr ⟨a, ha, rfl⟩])]
    exact hgood1 a ha
  refine ⟨hgood2, ?_⟩
  have hnoop : syncActions locals ((runEngine locals s0).1)
      = ((runEngine locals s0).1, 0) :=
    syncActions_noop locals _ hgood2
  have hdel : (reconcile ((runEngine locals s0).1)
      (locals.map LocalAction.name)).2 = 0 := by
    apply reconcile_deletes_zero
    intro r hr
    rw [hstate] at hr
    exact (List.mem_filter.mp hr).2
  set s2 := (runEngine locals s0).1 with hs2
  show (runEngine locals s2).2 = (0, 0)
  show ((reconcile (syncActions locals s2).1 (locals.map LocalAction.name)).1,
        (syncActions locals s2).2,
        (reconcile (syncActions locals s2).1 (locals.map LocalAction.name)).2).2
      = (0, 0)
  rw [hnoop]
  simp [hdel]

theorem c2_idempotent_convergence_witness :
    (∀ a ∈ [LocalAction.mk "alpha" "f1" []],
      needsUpload (runEngine [LocalAction.mk "alpha" "f1" []] []).1 a = false)
    ∧ (runEngine [LocalAction.mk "alpha" "f1" []]
        (runEngine [LocalAction.mk "alpha" "f1" []] []).1).2 = (0, 0) :=
  c2_idempotent_convergence [LocalAction.mk "alpha" "f1" []] []
    (by decide) (by decide)
